import Mathlib

/-!
Verification development for the Paper-radar ingestion pipeline.

The Python sources are shallowly embedded:
* Python `str` values are lists of Unicode code points (`List Nat`); the
  embedding restricts attention to well-formed text, i.e. Unicode scalar
  values (as produced by the upstream HTTP/XML/JSON/HTML decoders).
* the SQLite-backed article store (`src/storage/article_storage.py`) is a
  list of rows plus an autoincrement counter; a `FailPoint` parameter makes
  the possible `sqlite3.Error` raise sites explicit, and the rollback /
  return behaviour of each operation is modelled exactly as coded.
* the keyword filter (`src/filters/keyword_filter.py`) and the date-window
  selector (`src/main.py:filter_yesterday_articles`) are embedded as pure
  functions over the same string model.
-/

/-- Code points of a Lean string literal; used to write concrete Python
strings in examples and witnesses. -/
def strCodes (s : String) : List Nat :=
  s.toList.map Char.toNat

/-- A Unicode scalar value: any code point that is not a UTF-16 surrogate.
Well-formed Python text (anything decoded from bytes) consists of these. -/
def isScalar (c : Nat) : Prop :=
  c < 55296 ∨ (57344 ≤ c ∧ c < 1114112)

instance (c : Nat) : Decidable (isScalar c) := by
  unfold isScalar; infer_instance

/-- ASCII decimal digit test. -/
def isDigit (c : Nat) : Bool :=
  48 ≤ c && c ≤ 57

/-- ASCII letter test (model of `str.isalpha` restricted to ASCII). -/
def isAlphaChar (c : Nat) : Bool :=
  (65 ≤ c && c ≤ 90) || (97 ≤ c && c ≤ 122)

/-- Whitespace as stripped by Python `str.strip()` (ASCII fragment). -/
def isSpaceChar (c : Nat) : Bool :=
  c = 32 || c = 9 || c = 10 || c = 13 || c = 12 || c = 11

/-- Model of Python `str.lower()` on one code point (ASCII fold; the
claims settled here do not depend on the full Unicode case table). -/
def lowerChar (c : Nat) : Nat :=
  if 65 ≤ c && c ≤ 90 then c + 32 else c

/-- Model of Python `str.lower()`. -/
def lowerStr (s : List Nat) : List Nat :=
  s.map lowerChar

/-- Model of Python `str.strip()`: drop leading and trailing whitespace. -/
def stripStr (s : List Nat) : List Nat :=
  ((s.dropWhile isSpaceChar).reverse.dropWhile isSpaceChar).reverse

/-- Occurrence test: `k` occurs in `text` starting at position `i`. -/
def occursAt (k text : List Nat) (i : Nat) : Bool :=
  decide ((text.drop i).take k.length = k)

/-- Model of the Python substring test `k in text`. -/
def substrB (k text : List Nat) : Bool :=
  (List.range (text.length + 1)).any (fun i => occursAt k text i)

/-- Word character for the regex `\b` boundary (model of `\w`; ASCII
letters, digits and underscore — the Python engine is Unicode-aware, but
no claim depends on non-ASCII word characters). -/
def isWordChar (c : Nat) : Bool :=
  (48 ≤ c && c ≤ 57) || (65 ≤ c && c ≤ 90) || (97 ≤ c && c ≤ 122) || c = 95

/-- Whether the character at position `i` of `text` is a word character
(out-of-range positions are non-word). -/
def wordAt (text : List Nat) (i : Nat) : Bool :=
  i < text.length && isWordChar (text.getD i 0)

/-- The regex `\b` assertion at position `i` of `text`: word-character
status changes between positions `i - 1` and `i`. -/
def boundaryAt (text : List Nat) (i : Nat) : Bool :=
  (decide (i ≠ 0) && wordAt text (i - 1)) != wordAt text i

/-- Model of `re.search(r"\b" + re.escape(k) + r"\b", text)`: a literal,
word-boundary-delimited occurrence of `k` exists in `text`. -/
def wordBoundarySearch (k text : List Nat) : Bool :=
  (List.range (text.length + 1)).any
    (fun i => occursAt k text i && boundaryAt text i && boundaryAt text (i + k.length))

/-- Model of the syntactic acceptance check of the regular-expression
compiler (`re.compile`), restricted to the structural errors of an
unbalanced group and a dangling escape: scans the pattern tracking group
depth. `re.compile` rejects exactly these inputs among patterns built
from literals, escapes and groups; the unit used as a concrete invalid
pattern below is the unbalanced `"("`. -/
def parenScan : List Nat → Nat → Bool
  | [], depth => depth = 0
  | [92], _ => false
  | 92 :: _ :: rest, depth => parenScan rest depth
  | 40 :: rest, depth => parenScan rest (depth + 1)
  | 41 :: rest, depth => if depth = 0 then false else parenScan rest (depth - 1)
  | _ :: rest, depth => parenScan rest depth

/-- A pattern string is accepted by the model regex compiler. -/
def regexAccepts (p : List Nat) : Bool :=
  parenScan p 0

/-- A compiled regex pattern (`re.compile` result); the match semantics of
the engine is kept abstract (claims quantify over it), only the source
pattern is carried. -/
structure RegexPattern where
  src : List Nat
deriving DecidableEq, Repr

/-- A value stored under one key of a Python article dict, as consumed by
the keyword filter: a string or a list of strings. -/
inductive FieldVal where
  | s (v : List Nat)
  | l (v : List (List Nat))
deriving DecidableEq, Repr

/-- An article as seen by the keyword filter: a dict from field names to
values (first binding wins, as in a Python dict there is one binding). -/
abbrev FArticle := List (String × FieldVal)

/-- Dict lookup `article[field]` / the `field in article` test. -/
def lookupField (a : FArticle) (f : String) : Option FieldVal :=
  (a.find? (fun p => p.1 = f)).map (fun p => p.2)

/-- Textual content of one field: `" ".join(v)` for list values, `str(v)`
for string values (source lines 67–70 of `keyword_filter.py`). -/
def fieldText : FieldVal → List Nat
  | .s v => v
  | .l v => List.intercalate [32] v

/-- The search buffer built by `_article_matches_keywords` lines 63–70:
for each configured field present in the article, append its text and a
single space. -/
def buildSearchText (fields : List String) (a : FArticle) : List Nat :=
  fields.foldl
    (fun acc f =>
      match lookupField a f with
      | some v => acc ++ fieldText v ++ [32]
      | none => acc)
    []

/-- The matching configuration dict of `KeywordFilter.__init__` after the
`.get` defaults have been applied (`type` defaults to `"contain"`,
`case_sensitive`/`whole_word` to false, `match_any` to true,
`include_fields` to title/abstract/keywords). -/
structure MatchingConfig where
  type : String
  case_sensitive : Bool
  whole_word : Bool
  match_any : Bool
  include_fields : List String
deriving DecidableEq, Repr

/-- The constructed `KeywordFilter` object state. -/
structure KeywordFilter where
  keywords : List (List Nat)
  matchType : String
  caseSensitive : Bool
  wholeWord : Bool
  matchAny : Bool
  includeFields : List String
  compiledPatterns : Option (List RegexPattern)
deriving DecidableEq, Repr

/-- Constructor `KeywordFilter.__init__` (lines 11–32): copies the configuration and,
when `match_type == 'regex'`, compiles every keyword eagerly; a keyword
rejected by the regex compiler raises `re.error` out of the constructor
(there is no try/except), modelled as `Except.error` carrying the bad
pattern. For other match types `compiled_patterns` is `None`. -/
def keywordFilterInit (keywords : List (List Nat)) (cfg : MatchingConfig) :
    Except (List Nat) KeywordFilter :=
  if cfg.type = "regex" then
    match keywords.find? (fun k => !regexAccepts k) with
    | some bad => .error bad
    | none =>
        .ok { keywords := keywords, matchType := cfg.type,
              caseSensitive := cfg.case_sensitive, wholeWord := cfg.whole_word,
              matchAny := cfg.match_any, includeFields := cfg.include_fields,
              compiledPatterns := some (keywords.map (fun k => ⟨k⟩)) }
  else
    .ok { keywords := keywords, matchType := cfg.type,
          caseSensitive := cfg.case_sensitive, wholeWord := cfg.whole_word,
          matchAny := cfg.match_any, includeFields := cfg.include_fields,
          compiledPatterns := none }

/-- Decision procedure `_article_matches_keywords` (lines 53–108). `search` is the abstract
match semantics of a compiled pattern (`p.search(text)` truthiness);
claims about this function hold for every engine semantics. -/
def article_matches_keywords (f : KeywordFilter)
    (search : RegexPattern → List Nat → Bool) (a : FArticle) : Bool :=
  let searchText := buildSearchText f.includeFields a
  let perKeyword : List Bool :=
    if f.matchType = "regex" then
      (f.compiledPatterns.getD []).map (fun p => search p searchText)
    else
      let text := if f.caseSensitive then searchText else lowerStr searchText
      let kws := if f.caseSensitive then f.keywords else f.keywords.map lowerStr
      kws.map (fun keyword =>
        if f.matchType = "exact" then
          if f.wholeWord then wordBoundarySearch keyword text
          else decide (keyword = stripStr text)
        else if f.matchType = "contain" then
          if f.wholeWord then wordBoundarySearch keyword text
          else substrB keyword text
        else substrB keyword text)
  if f.matchAny then perKeyword.any id else perKeyword.all id

/-- Batch filter `filter_articles` (lines 34–51): keep, in order, the articles that
match. -/
def filter_articles (f : KeywordFilter)
    (search : RegexPattern → List Nat → Bool) (articles : List FArticle) :
    List FArticle :=
  articles.filter (fun a => article_matches_keywords f search a)

/-- A calendar date (what Python `datetime.date` carries). -/
structure CalDate where
  y : Nat
  m : Nat
  d : Nat
deriving DecidableEq, Repr

/-- The `published_date` value of an article dict reaching
`filter_yesterday_articles`: Python `None`, a `datetime` (only its
calendar date is consumed, via `.date()`), a string, or a value of any
other type. -/
inductive PubDate where
  | null
  | dt (d : CalDate)
  | s (v : List Nat)
  | other
deriving DecidableEq, Repr

/-- An article as seen by the date-window selector: its `published_date`
and a payload distinguishing articles. -/
structure YArticle where
  published_date : PubDate
  payload : Nat
deriving DecidableEq, Repr

/-- Digits to a natural number. -/
def natOfDigits (ds : List Nat) : Nat :=
  ds.foldl (fun a c => a * 10 + (c - 48)) 0

/-- Month-name table of the tolerant date parser (full and three-letter
English names, lowercase). -/
def monthTable : List (List Nat × Nat) :=
  [(strCodes "january", 1), (strCodes "february", 2), (strCodes "march", 3),
   (strCodes "april", 4), (strCodes "may", 5), (strCodes "june", 6),
   (strCodes "july", 7), (strCodes "august", 8), (strCodes "september", 9),
   (strCodes "october", 10), (strCodes "november", 11), (strCodes "december", 12),
   (strCodes "jan", 1), (strCodes "feb", 2), (strCodes "mar", 3),
   (strCodes "apr", 4), (strCodes "jun", 6), (strCodes "jul", 7),
   (strCodes "aug", 8), (strCodes "sep", 9), (strCodes "oct", 10),
   (strCodes "nov", 11), (strCodes "dec", 12)]

/-- ISO-8601 branch of the tolerant parser: `YYYY-MM-DD` optionally
followed by a `T` or space and a time-of-day, which is discarded. -/
def parseIsoDate : List Nat → Option CalDate
  | y1 :: y2 :: y3 :: y4 :: 45 :: m1 :: m2 :: 45 :: d1 :: d2 :: rest =>
    if isDigit y1 && isDigit y2 && isDigit y3 && isDigit y4 &&
       isDigit m1 && isDigit m2 && isDigit d1 && isDigit d2 &&
       (rest = [] || rest.headD 0 = 84 || rest.headD 0 = 32) then
      let m := natOfDigits [m1, m2]
      let d := natOfDigits [d1, d2]
      if 1 ≤ m && m ≤ 12 && 1 ≤ d && d ≤ 31 then
        some ⟨natOfDigits [y1, y2, y3, y4], m, d⟩
      else none
    else none
  | _ => none

/-- Named-month branch of the tolerant parser: `Month D, YYYY` (optional
comma); an alphabetic token that is not a month name fails. -/
def parseNamedMonthDate (s : List Nat) : Option CalDate :=
  let t := lowerStr (stripStr s)
  let w := t.takeWhile isAlphaChar
  let afterMonth := t.dropWhile isAlphaChar
  match (monthTable.find? (fun p => p.1 = w)).map (fun p => p.2) with
  | none => none
  | some m =>
    let r1 := afterMonth.dropWhile (fun c => c = 32)
    let ds := r1.takeWhile isDigit
    let r2 := r1.dropWhile isDigit
    if ds.length = 0 || 2 < ds.length then none
    else
      let d := natOfDigits ds
      let r3 := if r2.headD 0 = 44 then r2.tail else r2
      let r4 := r3.dropWhile (fun c => c = 32)
      let ys := r4.takeWhile isDigit
      let r5 := r4.dropWhile isDigit
      if ys.length = 4 && r5.isEmpty && 1 ≤ d && d ≤ 31 then
        some ⟨natOfDigits ys, m, d⟩
      else none

/-- Model of the third-party tolerant date parser used by
`filter_yesterday_articles` (`dateutil.parser.parse(...).date()`),
restricted to the encodings the claims exercise: ISO-8601 with optional
time, and named-month forms; anything else — e.g. `"Spring 2024"`, whose
leading token is not a month name — is a parse failure (`dateutil`
raises, modelled as `none`). -/
def date_parse (s : List Nat) : Option CalDate :=
  match parseIsoDate (stripStr s) with
  | some d => some d
  | none => parseNamedMonthDate s

/-- Date-window selector `filter_yesterday_articles` of `src/main.py` (lines 22–60), with the
tolerant parser `dp` and the target day `yesterday` as parameters: skip
articles with no `published_date`, take `.date()` of `datetime` values,
parse strings with `dp` and skip on failure, skip values of other types,
and keep an article exactly when the resolved date equals the target. -/
def filter_yesterday_articles (dp : List Nat → Option CalDate)
    (yesterday : CalDate) : List YArticle → List YArticle
  | [] => []
  | a :: rest =>
    match a.published_date with
    | .null => filter_yesterday_articles dp yesterday rest
    | .dt d =>
        if d = yesterday then a :: filter_yesterday_articles dp yesterday rest
        else filter_yesterday_articles dp yesterday rest
    | .s v =>
        match dp v with
        | some d =>
            if d = yesterday then a :: filter_yesterday_articles dp yesterday rest
            else filter_yesterday_articles dp yesterday rest
        | none => filter_yesterday_articles dp yesterday rest
    | .other => filter_yesterday_articles dp yesterday rest

/-- The retention predicate of the date-window selector: the
`published_date` resolves (natively or through the parser) to exactly the
target day. -/
def resolvesToTarget (dp : List Nat → Option CalDate) (yesterday : CalDate)
    (a : YArticle) : Bool :=
  match a.published_date with
  | .null => false
  | .dt d => decide (d = yesterday)
  | .s v => decide (dp v = some yesterday)
  | .other => false

/-- One hexadecimal digit as a lowercase ASCII code point. -/
def hexDigitChar (d : Nat) : Nat :=
  if d < 10 then 48 + d else 97 + (d - 10)

/-- Four-digit lowercase hex rendering of `n < 0x10000`, as in the
`\uXXXX` escapes emitted by `json.dumps`. -/
def hex4 (n : Nat) : List Nat :=
  [hexDigitChar (n / 4096 % 16), hexDigitChar (n / 256 % 16),
   hexDigitChar (n / 16 % 16), hexDigitChar (n % 16)]

/-- Escaping performed by `json.dumps` (default `ensure_ascii=True`) on one code
point: `\"` and `\\`, the short control escapes, `\u00XX` for the other
control characters, printable ASCII verbatim, `\uXXXX` for every other
BMP code point, and a UTF-16 surrogate pair of escapes for code points
beyond the BMP. -/
def escapeChar (c : Nat) : List Nat :=
  if c = 34 then [92, 34]
  else if c = 92 then [92, 92]
  else if c = 8 then [92, 98]
  else if c = 9 then [92, 116]
  else if c = 10 then [92, 110]
  else if c = 12 then [92, 102]
  else if c = 13 then [92, 114]
  else if c < 32 then 92 :: 117 :: hex4 c
  else if c ≤ 126 then [c]
  else if c < 65536 then 92 :: 117 :: hex4 c
  else 92 :: 117 :: hex4 (55296 + (c - 65536) / 1024) ++
       (92 :: 117 :: hex4 (56320 + (c - 65536) % 1024))

/-- Serialization of one string by `json.dumps`: quote, escaped body, quote. -/
def dumpStr (s : List Nat) : List Nat :=
  34 :: s.flatMap escapeChar ++ [34]

/-- Join with a separator (no trailing separator). -/
def joinSep (sep : List Nat) : List (List Nat) → List Nat
  | [] => []
  | [x] => x
  | x :: y :: rest => x ++ sep ++ joinSep sep (y :: rest)

/-- Serialization by `json.dumps` of a list of strings with the default `", "` item
separator: exactly the text `save_articles` stores in the `authors` and
`keywords` columns. -/
def dumpsStrList (xs : List (List Nat)) : List Nat :=
  91 :: joinSep [44, 32] (xs.map dumpStr) ++ [93]

/-- Value of one hex digit code point (`json.loads` accepts both cases). -/
def hexVal (c : Nat) : Option Nat :=
  if 48 ≤ c ∧ c ≤ 57 then some (c - 48)
  else if 97 ≤ c ∧ c ≤ 102 then some (c - 87)
  else if 65 ≤ c ∧ c ≤ 70 then some (c - 55)
  else none

/-- Value of a four-hex-digit escape body. -/
def hex4Val (a b c d : Nat) : Option Nat :=
  match hexVal a, hexVal b, hexVal c, hexVal d with
  | some x, some y, some z, some w => some (x * 4096 + y * 256 + z * 16 + w)
  | _, _, _, _ => none

/-- Single-character escapes recognised by the `json` scanner. -/
def escDecode (e : Nat) : Option Nat :=
  if e = 34 then some 34
  else if e = 92 then some 92
  else if e = 47 then some 47
  else if e = 98 then some 8
  else if e = 102 then some 12
  else if e = 110 then some 10
  else if e = 114 then some 13
  else if e = 116 then some 9
  else none

/-- First pass of the `json.loads` string scanner after the opening
quote: decode the input up to the closing quote into units, each the
value of one raw character or one escape, tagged with whether it came
from a `\\uXXXX` escape. Raw control characters are rejected
(`strict=True`), as is an invalid escape. -/
def parseUnits : List Nat → Option (List (Nat × Bool) × List Nat)
  | [] => none
  | c :: rest =>
    if c = 34 then some ([], rest)
    else if c = 92 then
      match rest with
      | [] => none
      | e :: rest2 =>
        if e = 117 then
          match rest2 with
          | a :: b :: c2 :: d :: rest3 =>
            match hex4Val a b c2 d with
            | none => none
            | some u => (parseUnits rest3).map (fun p => ((u, true) :: p.1, p.2))
          | _ => none
        else
          match escDecode e with
          | some ch => (parseUnits rest2).map (fun p => ((ch, false) :: p.1, p.2))
          | none => none
    else if c < 32 then none
    else (parseUnits rest).map (fun p => ((c, false) :: p.1, p.2))

/-- Second pass of the string scanner: a `\\uXXXX` high-surrogate unit
immediately followed by a `\\uXXXX` low-surrogate unit is combined into
one supplementary code point, left to right, exactly as `py_scanstring`
does during its single pass. -/
def combineSurrogates : List (Nat × Bool) → List Nat
  | [] => []
  | [(u, _)] => [u]
  | (u, fromU) :: (u2, fromU2) :: rest =>
    if fromU ∧ 55296 ≤ u ∧ u ≤ 56319 ∧ fromU2 = true ∧ 56320 ≤ u2 ∧ u2 ≤ 57343 then
      (65536 + (u - 55296) * 1024 + (u2 - 56320)) :: combineSurrogates rest
    else u :: combineSurrogates ((u2, fromU2) :: rest)

/-- The `json.loads` string scanner after the opening quote: returns the
decoded content and the remaining input past the closing quote. -/
def parseStrAux (l : List Nat) : Option (List Nat × List Nat) :=
  (parseUnits l).map (fun p => (combineSurrogates p.1, p.2))

/-- A JSON string literal: opening quote then scanned body. -/
def parseJsonStr : List Nat → Option (List Nat × List Nat)
  | 34 :: rest => parseStrAux rest
  | _ => none

/-- JSON insignificant whitespace skipping. -/
def skipWs : List Nat → List Nat
  | [] => []
  | c :: rest => if c = 32 || c = 9 || c = 10 || c = 13 then skipWs rest else c :: rest

/-- The `json.loads` array scanner for arrays of strings (the only array
shape this program ever stores), positioned at the first element: parses
a string, then after optional whitespace either a `,` and further
elements or the closing `]`. `fuel` bounds the number of elements; every
caller passes at least the input length plus one, which always suffices
since each element consumes at least one input character. -/
def parseElems : Nat → List Nat → Option (List (List Nat) × List Nat)
  | 0, _ => none
  | fuel + 1, l =>
    match parseJsonStr l with
    | none => none
    | some (s, rest) =>
      match skipWs rest with
      | 44 :: rest2 =>
        match parseElems fuel (skipWs rest2) with
        | some (xs, rest3) => some (s :: xs, rest3)
        | none => none
      | 93 :: rest2 => some ([s], rest2)
      | _ => none

/-- Model of `json.loads` restricted to arrays of strings: the deserialization
applied by `get_unsent_articles` to the stored `authors`/`keywords`
columns. `none` models a raised `json.JSONDecodeError`. -/
def loadsStrList (l : List Nat) : Option (List (List Nat)) :=
  match skipWs l with
  | 91 :: rest =>
    match skipWs rest with
    | 93 :: rest2 => if skipWs rest2 = [] then some [] else none
    | r =>
      match parseElems (l.length + 1) r with
      | some (xs, rest3) => if skipWs rest3 = [] then some xs else none
      | none => none
  | _ => none

theorem hexVal_hexDigitChar (d : Nat) (hd : d < 16) :
    hexVal (hexDigitChar d) = some d := by
  by_cases h : d < 10
  · have hc : hexDigitChar d = 48 + d := by unfold hexDigitChar; rw [if_pos h]
    rw [hc]
    unfold hexVal
    rw [if_pos (by omega : 48 ≤ 48 + d ∧ 48 + d ≤ 57)]
    congr 1
    omega
  · have hc : hexDigitChar d = 97 + (d - 10) := by unfold hexDigitChar; rw [if_neg h]
    rw [hc]
    unfold hexVal
    rw [if_neg (by omega : ¬(48 ≤ 97 + (d - 10) ∧ 97 + (d - 10) ≤ 57)),
        if_pos (by omega : 97 ≤ 97 + (d - 10) ∧ 97 + (d - 10) ≤ 102)]
    congr 1
    omega

theorem hex4Val_hex4 (n : Nat) (hn : n < 65536) :
    hex4Val (hexDigitChar (n / 4096 % 16)) (hexDigitChar (n / 256 % 16))
      (hexDigitChar (n / 16 % 16)) (hexDigitChar (n % 16)) = some n := by
  have h1 := hexVal_hexDigitChar (n / 4096 % 16) (by omega)
  have h2 := hexVal_hexDigitChar (n / 256 % 16) (by omega)
  have h3 := hexVal_hexDigitChar (n / 16 % 16) (by omega)
  have h4 := hexVal_hexDigitChar (n % 16) (by omega)
  simp [hex4Val, h1, h2, h3, h4]
  omega


/-- The unit sequence that the first scanner pass recovers from the
escape of one code point. -/
def escUnits (c : Nat) : List (Nat × Bool) :=
  if c = 34 then [(34, false)]
  else if c = 92 then [(92, false)]
  else if c = 8 ∨ c = 9 ∨ c = 10 ∨ c = 12 ∨ c = 13 then [(c, false)]
  else if c < 32 then [(c, true)]
  else if c ≤ 126 then [(c, false)]
  else if c < 65536 then [(c, true)]
  else [(55296 + (c - 65536) / 1024, true), (56320 + (c - 65536) % 1024, true)]

theorem parseUnits_escapeChar (c : Nat) (hcp : c < 1114112) (rest : List Nat) :
    parseUnits (escapeChar c ++ rest) =
      (parseUnits rest).map (fun p => (escUnits c ++ p.1, p.2)) := by
  have hu4 : ∀ n : Nat, n < 65536 → ∀ tail : List Nat,
      parseUnits (92 :: 117 :: hex4 n ++ tail) =
        (parseUnits tail).map (fun p => ((n, true) :: p.1, p.2)) := by
    intro n hn tail
    simp only [hex4, List.cons_append, List.nil_append]
    rw [parseUnits.eq_def]
    simp only [reduceCtorEq, reduceIte, Nat.reduceEqDiff]
    rw [hex4Val_hex4 n hn]
  by_cases h34 : c = 34
  · subst h34
    have he : escapeChar 34 = [92, 34] := by rfl
    have hu : escUnits 34 = [(34, false)] := by rfl
    rw [he, hu]
    simp only [List.cons_append, List.nil_append]
    rw [parseUnits.eq_def]
    simp [escDecode]
  by_cases h92 : c = 92
  · subst h92
    have he : escapeChar 92 = [92, 92] := by rfl
    have hu : escUnits 92 = [(92, false)] := by rfl
    rw [he, hu]
    simp only [List.cons_append, List.nil_append]
    rw [parseUnits.eq_def]
    simp [escDecode]
  by_cases h8 : c = 8
  · subst h8
    have he : escapeChar 8 = [92, 98] := by rfl
    have hu : escUnits 8 = [(8, false)] := by rfl
    rw [he, hu]
    simp only [List.cons_append, List.nil_append]
    rw [parseUnits.eq_def]
    simp [escDecode]
  by_cases h9 : c = 9
  · subst h9
    have he : escapeChar 9 = [92, 116] := by rfl
    have hu : escUnits 9 = [(9, false)] := by rfl
    rw [he, hu]
    simp only [List.cons_append, List.nil_append]
    rw [parseUnits.eq_def]
    simp [escDecode]
  by_cases h10 : c = 10
  · subst h10
    have he : escapeChar 10 = [92, 110] := by rfl
    have hu : escUnits 10 = [(10, false)] := by rfl
    rw [he, hu]
    simp only [List.cons_append, List.nil_append]
    rw [parseUnits.eq_def]
    simp [escDecode]
  by_cases h12 : c = 12
  · subst h12
    have he : escapeChar 12 = [92, 102] := by rfl
    have hu : escUnits 12 = [(12, false)] := by rfl
    rw [he, hu]
    simp only [List.cons_append, List.nil_append]
    rw [parseUnits.eq_def]
    simp [escDecode]
  by_cases h13 : c = 13
  · subst h13
    have he : escapeChar 13 = [92, 114] := by rfl
    have hu : escUnits 13 = [(13, false)] := by rfl
    rw [he, hu]
    simp only [List.cons_append, List.nil_append]
    rw [parseUnits.eq_def]
    simp [escDecode]
  have hspec : ¬(c = 8 ∨ c = 9 ∨ c = 10 ∨ c = 12 ∨ c = 13) := by
    intro h; rcases h with h | h | h | h | h <;> omega
  by_cases hc32 : c < 32
  · have he : escapeChar c = 92 :: 117 :: hex4 c := by
      unfold escapeChar
      rw [if_neg h34, if_neg h92, if_neg h8, if_neg h9, if_neg h10, if_neg h12,
          if_neg h13, if_pos hc32]
    have hu : escUnits c = [(c, true)] := by
      unfold escUnits
      rw [if_neg h34, if_neg h92, if_neg hspec, if_pos hc32]
    rw [he, hu, hu4 c (by omega) rest]
    simp
  by_cases hc126 : c ≤ 126
  · have he : escapeChar c = [c] := by
      unfold escapeChar
      rw [if_neg h34, if_neg h92, if_neg h8, if_neg h9, if_neg h10, if_neg h12,
          if_neg h13, if_neg hc32, if_pos hc126]
    have hu : escUnits c = [(c, false)] := by
      unfold escUnits
      rw [if_neg h34, if_neg h92, if_neg hspec, if_neg hc32, if_pos hc126]
    rw [he, hu]
    simp only [List.cons_append, List.nil_append]
    rw [parseUnits.eq_def]
    simp [h34, h92, hc32]
  by_cases hbmp : c < 65536
  · have he : escapeChar c = 92 :: 117 :: hex4 c := by
      unfold escapeChar
      rw [if_neg h34, if_neg h92, if_neg h8, if_neg h9, if_neg h10, if_neg h12,
          if_neg h13, if_neg hc32, if_neg hc126, if_pos hbmp]
    have hu : escUnits c = [(c, true)] := by
      unfold escUnits
      rw [if_neg h34, if_neg h92, if_neg hspec, if_neg hc32, if_neg hc126, if_pos hbmp]
    rw [he, hu, hu4 c (by omega) rest]
    simp
  · have he : escapeChar c =
        92 :: 117 :: hex4 (55296 + (c - 65536) / 1024) ++
          (92 :: 117 :: hex4 (56320 + (c - 65536) % 1024)) := by
      unfold escapeChar
      rw [if_neg h34, if_neg h92, if_neg h8, if_neg h9, if_neg h10, if_neg h12,
          if_neg h13, if_neg hc32, if_neg hc126, if_neg hbmp]
    have hu : escUnits c =
        [(55296 + (c - 65536) / 1024, true), (56320 + (c - 65536) % 1024, true)] := by
      unfold escUnits
      rw [if_neg h34, if_neg h92, if_neg hspec, if_neg hc32, if_neg hc126, if_neg hbmp]
    rw [he, hu, List.append_assoc]
    rw [hu4 (55296 + (c - 65536) / 1024) (by omega)
          (92 :: 117 :: hex4 (56320 + (c - 65536) % 1024) ++ rest)]
    rw [hu4 (56320 + (c - 65536) % 1024) (by omega) rest]
    cases parseUnits rest <;> simp

theorem combineSurrogates_cons (u : Nat) (f : Bool) (us : List (Nat × Bool))
    (h : ¬(f = true ∧ 55296 ≤ u ∧ u ≤ 56319)) :
    combineSurrogates ((u, f) :: us) = u :: combineSurrogates us := by
  match us with
  | [] => rfl
  | (u2, f2) :: rest =>
    rw [combineSurrogates]
    rw [if_neg (by tauto)]

theorem combineSurrogates_pair (hi lo : Nat) (us : List (Nat × Bool))
    (hhi : 55296 ≤ hi ∧ hi ≤ 56319) (hlo : 56320 ≤ lo ∧ lo ≤ 57343) :
    combineSurrogates ((hi, true) :: (lo, true) :: us) =
      (65536 + (hi - 55296) * 1024 + (lo - 56320)) :: combineSurrogates us := by
  rw [combineSurrogates]
  rw [if_pos (by tauto)]

theorem combineSurrogates_escUnits (c : Nat) (hc : isScalar c)
    (us : List (Nat × Bool)) :
    combineSurrogates (escUnits c ++ us) = c :: combineSurrogates us := by
  rcases hc with hlo | hhi
  · by_cases h34 : c = 34
    · subst h34; exact combineSurrogates_cons _ _ _ (by simp)
    by_cases h92 : c = 92
    · subst h92; exact combineSurrogates_cons _ _ _ (by simp)
    by_cases hspec : c = 8 ∨ c = 9 ∨ c = 10 ∨ c = 12 ∨ c = 13
    · have hu : escUnits c = [(c, false)] := by
        unfold escUnits; rw [if_neg h34, if_neg h92, if_pos hspec]
      rw [hu]
      exact combineSurrogates_cons _ _ _ (by simp)
    by_cases hc32 : c < 32
    · have hu : escUnits c = [(c, true)] := by
        unfold escUnits; rw [if_neg h34, if_neg h92, if_neg hspec, if_pos hc32]
      rw [hu]
      exact combineSurrogates_cons _ _ _ (by omega)
    by_cases hc126 : c ≤ 126
    · have hu : escUnits c = [(c, false)] := by
        unfold escUnits; rw [if_neg h34, if_neg h92, if_neg hspec, if_neg hc32, if_pos hc126]
      rw [hu]
      exact combineSurrogates_cons _ _ _ (by simp)
    · have hu : escUnits c = [(c, true)] := by
        unfold escUnits
        rw [if_neg h34, if_neg h92, if_neg hspec, if_neg hc32, if_neg hc126,
            if_pos (by omega : c < 65536)]
      rw [hu]
      exact combineSurrogates_cons _ _ _ (by omega)
  · by_cases hbmp : c < 65536
    · have hu : escUnits c = [(c, true)] := by
        unfold escUnits
        rw [if_neg (by omega), if_neg (by omega),
            if_neg (by rintro (h | h | h | h | h) <;> omega), if_neg (by omega),
            if_neg (by omega), if_pos hbmp]
      rw [hu]
      exact combineSurrogates_cons _ _ _ (by omega)
    · have hu : escUnits c =
          [(55296 + (c - 65536) / 1024, true), (56320 + (c - 65536) % 1024, true)] := by
        unfold escUnits
        rw [if_neg (by omega), if_neg (by omega),
            if_neg (by rintro (h | h | h | h | h) <;> omega), if_neg (by omega),
            if_neg (by omega), if_neg hbmp]
      rw [hu]
      rw [show ([(55296 + (c - 65536) / 1024, true), (56320 + (c - 65536) % 1024, true)] ++ us)
            = (55296 + (c - 65536) / 1024, true) :: (56320 + (c - 65536) % 1024, true) :: us
          from rfl]
      rw [combineSurrogates_pair _ _ _ (by omega) (by omega)]
      have hx : 65536 + (55296 + (c - 65536) / 1024 - 55296) * 1024 +
          (56320 + (c - 65536) % 1024 - 56320) = c := by omega
      rw [hx]

theorem parseUnits_flatMap (s : List Nat) (hs : ∀ c ∈ s, isScalar c) (rest : List Nat) :
    parseUnits (s.flatMap escapeChar ++ (34 :: rest)) =
      some (s.flatMap escUnits, rest) := by
  induction s with
  | nil =>
    rw [parseUnits.eq_def]
    simp
  | cons c t ih =>
    have hc : isScalar c := hs c (by simp)
    have hcp : c < 1114112 := by rcases hc with h | h <;> omega
    simp only [List.flatMap_cons, List.append_assoc]
    rw [parseUnits_escapeChar c hcp]
    rw [ih (fun d hd => hs d (by simp [hd]))]
    simp

theorem combineSurrogates_flatMap (s : List Nat) (hs : ∀ c ∈ s, isScalar c) :
    combineSurrogates (s.flatMap escUnits) = s := by
  induction s with
  | nil => rfl
  | cons c t ih =>
    simp only [List.flatMap_cons]
    rw [combineSurrogates_escUnits c (hs c (by simp))]
    rw [ih (fun d hd => hs d (by simp [hd]))]

theorem parseJsonStr_dumpStr (s : List Nat) (hs : ∀ c ∈ s, isScalar c) (rest : List Nat) :
    parseJsonStr (dumpStr s ++ rest) = some (s, rest) := by
  have h : dumpStr s ++ rest = 34 :: (s.flatMap escapeChar ++ (34 :: rest)) := by
    simp [dumpStr]
  rw [h]
  rw [show parseJsonStr (34 :: (s.flatMap escapeChar ++ (34 :: rest)))
        = parseStrAux (s.flatMap escapeChar ++ (34 :: rest)) from rfl]
  unfold parseStrAux
  rw [parseUnits_flatMap s hs rest]
  simp [combineSurrogates_flatMap s hs]

theorem skipWs_cons_34 (l : List Nat) : skipWs (34 :: l) = 34 :: l := rfl

theorem skipWs_cons_44 (l : List Nat) : skipWs (44 :: l) = 44 :: l := rfl

theorem skipWs_cons_91 (l : List Nat) : skipWs (91 :: l) = 91 :: l := rfl

theorem skipWs_cons_93 (l : List Nat) : skipWs (93 :: l) = 93 :: l := rfl

theorem skipWs_cons_32 (l : List Nat) : skipWs (32 :: l) = skipWs l := rfl

theorem joinSep_dump_head (y : List Nat) (u : List (List Nat)) :
    ∃ z, joinSep [44, 32] ((y :: u).map dumpStr) = 34 :: z := by
  cases u with
  | nil => exact ⟨y.flatMap escapeChar ++ [34], by simp [joinSep, dumpStr]⟩
  | cons y2 u2 =>
    refine ⟨(y.flatMap escapeChar ++ [34]) ++
      ([44, 32] ++ joinSep [44, 32] ((y2 :: u2).map dumpStr)), ?_⟩
    simp [joinSep, dumpStr]

theorem joinSep_dump_length (xs : List (List Nat)) :
    xs.length ≤ (joinSep [44, 32] (xs.map dumpStr)).length + 1 := by
  induction xs with
  | nil => simp [joinSep]
  | cons x t ih =>
    cases t with
    | nil => simp [joinSep, dumpStr]
    | cons y u =>
      rw [show joinSep [44, 32] ((x :: y :: u).map dumpStr)
            = dumpStr x ++ ([44, 32] ++ joinSep [44, 32] ((y :: u).map dumpStr)) from by
          simp [joinSep]]
      simp only [List.length_cons, List.length_append] at ih ⊢
      omega

theorem parseElems_joinSep (xs : List (List Nat)) :
    ∀ (fuel : Nat) (rest : List Nat),
    xs ≠ [] → xs.length ≤ fuel → (∀ s ∈ xs, ∀ c ∈ s, isScalar c) →
    parseElems fuel (joinSep [44, 32] (xs.map dumpStr) ++ (93 :: rest)) =
      some (xs, rest) := by
  induction xs with
  | nil => intro fuel rest h; exact absurd rfl h
  | cons x t ih =>
    intro fuel rest _ hlen hwf
    obtain ⟨f, rfl⟩ : ∃ f, fuel = f + 1 := by
      cases fuel with
      | zero => simp at hlen
      | succ f => exact ⟨f, rfl⟩
    cases t with
    | nil =>
      rw [show joinSep [44, 32] ([x].map dumpStr) = dumpStr x from by simp [joinSep]]
      rw [parseElems]
      rw [parseJsonStr_dumpStr x (fun c hc => hwf x (by simp) c hc) (93 :: rest)]
      simp only [skipWs_cons_93]
    | cons y u =>
      rw [show joinSep [44, 32] ((x :: y :: u).map dumpStr)
            = dumpStr x ++ ([44, 32] ++ joinSep [44, 32] ((y :: u).map dumpStr)) from by
          simp [joinSep]]
      rw [List.append_assoc]
      rw [show ([44, 32] ++ joinSep [44, 32] ((y :: u).map dumpStr)) ++ (93 :: rest)
            = 44 :: 32 :: (joinSep [44, 32] ((y :: u).map dumpStr) ++ (93 :: rest)) from by
          simp]
      rw [parseElems]
      rw [parseJsonStr_dumpStr x (fun c hc => hwf x (by simp) c hc)]
      obtain ⟨z, hz⟩ := joinSep_dump_head y u
      have hskip : skipWs (joinSep [44, 32] ((y :: u).map dumpStr) ++ (93 :: rest))
          = joinSep [44, 32] ((y :: u).map dumpStr) ++ (93 :: rest) := by
        rw [hz]
        exact skipWs_cons_34 _
      have hrec := ih f rest (by simp) (by simp at hlen ⊢; omega)
        (fun s hs c hc => hwf s (by simp [hs]) c hc)
      simp only [skipWs_cons_44, skipWs_cons_32, hskip, hrec]

theorem loadsStrList_dumpsStrList (xs : List (List Nat))
    (hwf : ∀ s ∈ xs, ∀ c ∈ s, isScalar c) :
    loadsStrList (dumpsStrList xs) = some xs := by
  cases xs with
  | nil => rfl
  | cons x t =>
    obtain ⟨z, hz⟩ := joinSep_dump_head x t
    have hlen : (x :: t).length ≤ (dumpsStrList (x :: t)).length + 1 := by
      have h := joinSep_dump_length (x :: t)
      simp only [dumpsStrList, List.length_cons, List.length_append] at h ⊢
      omega
    have hmain := parseElems_joinSep (x :: t) ((dumpsStrList (x :: t)).length + 1) []
      (by simp) hlen hwf
    unfold loadsStrList
    rw [show dumpsStrList (x :: t)
          = 91 :: (34 :: (z ++ [93])) from by
        unfold dumpsStrList
        rw [hz]
        simp]
    rw [skipWs_cons_91]
    have hmain2 : parseElems ((91 :: 34 :: (z ++ [93])).length + 1) (34 :: (z ++ [93]))
        = some (x :: t, []) := by
      rw [show (34 : Nat) :: (z ++ [93]) = (34 :: z) ++ (93 :: []) from by simp]
      rw [← hz]
      have heq2 : (91 :: (joinSep [44, 32] ((x :: t).map dumpStr) ++ 93 :: [])).length + 1
          = (dumpsStrList (x :: t)).length + 1 := by
        simp [dumpsStrList]
      rw [heq2]
      exact hmain
    simp only [skipWs_cons_34, hmain2]
    rfl

/-- An article dict as consumed by `save_articles`: the keys read with
`article[...]` are mandatory fields, the keys read with `article.get(...)`
are optional (`keywords` defaults to `[]`, `doi` and `source_id` to `''`). -/
structure Article where
  title : List Nat
  url : List Nat
  abstract : List Nat
  authors : List (List Nat)
  published_date : PubDate
  journal : List Nat
  keywords : Option (List (List Nat))
  doi : Option (List Nat)
  source_id : Option (List Nat)
deriving DecidableEq, Repr

/-- One row of the `articles` table (`_init_db`). `authors` and
`keywords` hold the serialized JSON text exactly as stored. Dates are
day numbers: the stored `'YYYY-MM-DD'` strings compare under SQLite
string `<` exactly as calendar dates do, so the embedding uses an
order-isomorphic integer scale. -/
structure Row where
  id : Nat
  title : List Nat
  url : List Nat
  abstract : List Nat
  authors : List Nat
  published_date : PubDate
  journal : List Nat
  keywords : List Nat
  doi : List Nat
  source_id : List Nat
  collected_date : Int
  sent_date : Option Int
deriving DecidableEq, Repr

/-- The persistent store: the `articles` table in insertion order plus
the autoincrement counter. -/
structure Db where
  rows : List Row
  nextId : Nat
deriving DecidableEq, Repr

/-- The existence check `SELECT id FROM articles WHERE url = ?`
(fetchone is not None). -/
def urlExists (db : Db) (u : List Nat) : Bool :=
  db.rows.any (fun r => r.url = u)

/-- The `INSERT INTO articles ...` of `save_articles` (lines 93–109):
authors and keywords are serialized with `json.dumps`, `collected_date`
is today, `sent_date` is NULL, the id is the autoincrement value. -/
def insertRow (db : Db) (today : Int) (a : Article) : Db :=
  { rows := db.rows ++
      [{ id := db.nextId, title := a.title, url := a.url, abstract := a.abstract,
         authors := dumpsStrList a.authors, published_date := a.published_date,
         journal := a.journal, keywords := dumpsStrList (a.keywords.getD []),
         doi := a.doi.getD [], source_id := a.source_id.getD [],
         collected_date := today, sent_date := none }],
    nextId := db.nextId + 1 }

/-- A site at which `sqlite3` can raise during `save_articles`, counted
from the current position of the loop: the `connect` call, the existence
check for the k-th article still to be processed, the insert for the
k-th article still to be processed (reachable only if that insert is
executed), or the final `commit`. -/
inductive FailPoint where
  | connect
  | check (k : Nat)
  | ins (k : Nat)
  | commit
deriving DecidableEq, Repr

/-- Advance a pending failure site past one loop iteration; a site whose
statement was not executed in that iteration expires. -/
def stepFail : Option FailPoint → Option FailPoint
  | some (.check (k + 1)) => some (.check k)
  | some (.check 0) => none
  | some (.ins (k + 1)) => some (.ins k)
  | some (.ins 0) => none
  | x => x

/-- The loop of `save_articles` (lines 84–114) followed by the
commit/except/finally epilogue: for each article, check existence by
url against the connection's own view `cur` (uncommitted inserts are
visible to the same connection); skip if present; insert and append to
`new_articles` if absent. A `sqlite3.Error` at the designated site
aborts the loop; the except clause rolls the transaction back to the
pre-call state `db0` and the function still returns the accumulated
`new_articles` list. A failing `commit` likewise rolls back after the
whole list was accumulated. -/
def save_loop (db0 : Db) (today : Int) :
    Option FailPoint → List Article → List Article → Db → List Article × Db
  | fail, [], acc, cur => if fail = some .commit then (acc, db0) else (acc, cur)
  | fail, a :: rest, acc, cur =>
    if fail = some (.check 0) then (acc, db0)
    else if urlExists cur a.url then save_loop db0 today (stepFail fail) rest acc cur
    else if fail = some (.ins 0) then (acc, db0)
    else save_loop db0 today (stepFail fail) rest (acc ++ [a]) (insertRow cur today a)

/-- Operation `save_articles` (lines 67–124). `fail = none` models the run in
which no storage error occurs; `fail = some fp` the run in which
`sqlite3` raises at site `fp`. A failing `connect` yields `([], db)`
before any work. -/
def save_articles (db : Db) (today : Int) (articles : List Article)
    (fail : Option FailPoint) : List Article × Db :=
  if fail = some .connect then ([], db)
  else save_loop db today fail articles [] db

/-- The comparison behind `ORDER BY collected_date DESC, id DESC`:
row `r1` sorts no later than `r2`. -/
def unsentLe (r1 r2 : Row) : Bool :=
  r2.collected_date < r1.collected_date ||
    (r2.collected_date = r1.collected_date && r2.id ≤ r1.id)

/-- The row set produced by the query of `get_unsent_articles`
(lines 174–179): rows with NULL `sent_date`, ordered by
`collected_date DESC, id DESC`, capped at `limit`. -/
def get_unsent_rows (db : Db) (limit : Nat) : List Row :=
  (((db.rows.filter (fun r => r.sent_date = none)).mergeSort unsentLe)).take limit

/-- The article dict built from one fetched row (lines 183–188) after
`json.loads` of the `authors` and `keywords` columns. -/
structure OutArticle where
  id : Nat
  title : List Nat
  url : List Nat
  abstract : List Nat
  authors : List (List Nat)
  published_date : PubDate
  journal : List Nat
  keywords : List (List Nat)
  doi : List Nat
  source_id : List Nat
  collected_date : Int
  sent_date : Option Int
deriving DecidableEq, Repr

/-- Deserialize one row as `get_unsent_articles` does; `none` models a
raised `json.JSONDecodeError` (which `except sqlite3.Error` would not
catch). -/
def row_to_article (r : Row) : Option OutArticle :=
  match loadsStrList r.authors, loadsStrList r.keywords with
  | some as2, some ks =>
      some { id := r.id, title := r.title, url := r.url, abstract := r.abstract,
             authors := as2, published_date := r.published_date, journal := r.journal,
             keywords := ks, doi := r.doi, source_id := r.source_id,
             collected_date := r.collected_date, sent_date := r.sent_date }
  | _, _ => none

/-- Operation `get_unsent_articles` (lines 156–197) on the error-free path. -/
def get_unsent_articles (db : Db) (limit : Nat) : Option (List OutArticle) :=
  (get_unsent_rows db limit).mapM row_to_article

/-- Operation `cleanup_old_articles` (lines 199–225): deletes the rows whose
`collected_date` is strictly below `today - retention_days`; the
deleted-row count is only logged, the function body has no `return`, so
the Python return value is `None` — modelled as the second component
`none : Option Int` (an integer return would be `some n`). -/
def cleanup_old_articles (db : Db) (today retention_days : Int) : Db × Option Int :=
  ({ rows := db.rows.filter (fun r => !(r.collected_date < today - retention_days)),
     nextId := db.nextId }, none)

/-- The `deleted_count = cursor.rowcount` value that `cleanup_old_articles`
logs. -/
def cleanup_deleted_count (db : Db) (today retention_days : Int) : Nat :=
  db.rows.countP (fun r => r.collected_date < today - retention_days)

/-- Fold inserting a batch of articles in order. -/
def insertAll (db : Db) (today : Int) (arts : List Article) : Db :=
  arts.foldl (fun d a => insertRow d today a) db

/-- Whether failure site `fp` is actually reached when the loop of
`save_articles` processes `arts` against current state `cur`: a check
site needs its article to exist in the list, an insert site additionally
needs that article's url to be absent when the loop reaches it, and the
commit is always reached. -/
def firesB (today : Int) : FailPoint → List Article → Db → Bool
  | .connect, _, _ => false
  | .commit, _, _ => true
  | .check k, arts, _ => decide (k < arts.length)
  | .ins _, [], _ => false
  | .ins 0, a :: _, cur => !urlExists cur a.url
  | .ins (k + 1), a :: rest, cur =>
      firesB today (.ins k) rest
        (if urlExists cur a.url then cur else insertRow cur today a)

/-- The number of loop iterations completed before failure site `fp`
aborts a run over a list of the given length. -/
def fpIdx : FailPoint → Nat → Nat
  | .connect, _ => 0
  | .check k, _ => k
  | .ins k, _ => k
  | .commit, n => n

/-- Failure site `fp` actually raises in the run of `save_articles` on
`arts` from state `db`: a failing connect always raises; any other site
raises exactly when the loop reaches it. -/
def saveFailFires (db : Db) (today : Int) (arts : List Article)
    (fp : FailPoint) : Prop :=
  fp = .connect ∨ firesB today fp arts db = true

theorem urlExists_insertRow (db : Db) (t : Int) (a : Article) (u : List Nat) :
    urlExists (insertRow db t a) u = (urlExists db u || decide (a.url = u)) := by
  simp [urlExists, insertRow]

theorem urlExists_insertAll_of (db : Db) (t : Int) (arts : List Article) (u : List Nat)
    (h : urlExists db u = true) : urlExists (insertAll db t arts) u = true := by
  induction arts generalizing db with
  | nil => exact h
  | cons a rest ih =>
    rw [show insertAll db t (a :: rest) = insertAll (insertRow db t a) t rest from rfl]
    exact ih _ (by rw [urlExists_insertRow, h]; rfl)

theorem urlExists_insertAll_mem (db : Db) (t : Int) (arts : List Article)
    (a : Article) (ha : a ∈ arts) : urlExists (insertAll db t arts) a.url = true := by
  induction arts generalizing db with
  | nil => cases ha
  | cons b rest ih =>
    rw [show insertAll db t (b :: rest) = insertAll (insertRow db t b) t rest from rfl]
    rcases List.mem_cons.mp ha with rfl | ha2
    · exact urlExists_insertAll_of _ t rest _ (by rw [urlExists_insertRow]; simp)
    · exact ih (insertRow db t b) ha2

theorem insertAll_rows_length (db : Db) (t : Int) (arts : List Article) :
    (insertAll db t arts).rows.length = db.rows.length + arts.length := by
  induction arts generalizing db with
  | nil => simp [insertAll]
  | cons a rest ih =>
    rw [show insertAll db t (a :: rest) = insertAll (insertRow db t a) t rest from rfl]
    rw [ih]
    simp [insertRow]
    omega

theorem save_loop_none_fresh (db0 : Db) (t : Int) (arts : List Article) :
    ∀ (acc : List Article) (cur : Db),
    (arts.map (fun a => a.url)).Nodup →
    (∀ a ∈ arts, urlExists cur a.url = false) →
    save_loop db0 t none arts acc cur = (acc ++ arts, insertAll cur t arts) := by
  induction arts with
  | nil => intro acc cur _ _; simp [save_loop, insertAll]
  | cons a rest ih =>
    intro acc cur hnd hfresh
    rw [save_loop]
    rw [if_neg (by simp), hfresh a (by simp)]
    rw [if_neg (by simp), if_neg (by simp)]
    rw [show stepFail none = none from rfl]
    have hnd2 : (rest.map (fun a => a.url)).Nodup := by
      simp only [List.map_cons, List.nodup_cons] at hnd
      exact hnd.2
    have hfresh2 : ∀ b ∈ rest, urlExists (insertRow cur t a) b.url = false := by
      intro b hb
      rw [urlExists_insertRow, hfresh b (by simp [hb])]
      simp only [List.map_cons, List.nodup_cons] at hnd
      have : a.url ≠ b.url := by
        intro he
        exact hnd.1 (he ▸ List.mem_map_of_mem (fun x => x.url) hb)
      simp [this]
    rw [ih (acc ++ [a]) (insertRow cur t a) hnd2 hfresh2]
    simp [insertAll]

theorem save_loop_none_allexist (db0 : Db) (t : Int) (arts : List Article) :
    ∀ (acc : List Article) (cur : Db),
    (∀ a ∈ arts, urlExists cur a.url = true) →
    save_loop db0 t none arts acc cur = (acc, cur) := by
  induction arts with
  | nil => intro acc cur _; simp [save_loop]
  | cons a rest ih =>
    intro acc cur hex
    rw [save_loop]
    rw [if_neg (by simp), hex a (by simp)]
    rw [show stepFail none = none from rfl]
    rw [if_pos rfl]
    exact ih acc cur (fun b hb => hex b (by simp [hb]))

theorem save_loop_none_rows_mem (db0 : Db) (t : Int) (arts : List Article) :
    ∀ (acc : List Article) (cur : Db) (r : Row),
    r ∈ (save_loop db0 t none arts acc cur).2.rows →
    r ∈ cur.rows ∨ ∃ a ∈ arts, r.authors = dumpsStrList a.authors ∧
      r.keywords = dumpsStrList (a.keywords.getD []) ∧ r.url = a.url := by
  induction arts with
  | nil =>
    intro acc cur r hr
    simp only [save_loop] at hr
    rw [if_neg (by simp)] at hr
    exact Or.inl hr
  | cons a rest ih =>
    intro acc cur r hr
    rw [save_loop, if_neg (by simp)] at hr
    by_cases hex : urlExists cur a.url = true
    · rw [hex] at hr
      simp only [if_pos] at hr
      rw [show stepFail none = none from rfl] at hr
      rcases ih acc cur r hr with h | ⟨b, hb, hf⟩
      · exact Or.inl h
      · exact Or.inr ⟨b, by simp [hb], hf⟩
    · rw [Bool.not_eq_true] at hex
      rw [hex] at hr
      simp only [Bool.false_eq_true, if_neg, if_false] at hr
      rw [if_neg (by simp), show stepFail none = none from rfl] at hr
      rcases ih (acc ++ [a]) (insertRow cur t a) r hr with h | ⟨b, hb, hf⟩
      · simp only [insertRow, List.mem_append] at h
        rcases h with h2 | h2
        · exact Or.inl h2
        · refine Or.inr ⟨a, by simp, ?_⟩
          rcases List.mem_singleton.mp h2 with rfl
          exact ⟨rfl, rfl, rfl⟩
      · exact Or.inr ⟨b, by simp [hb], hf⟩

theorem save_loop_fail (db0 : Db) (t : Int) (arts : List Article) :
    ∀ (fp : FailPoint) (acc : List Article) (cur : Db),
    firesB t fp arts cur = true →
    save_loop db0 t (some fp) arts acc cur
      = ((save_loop db0 t none (arts.take (fpIdx fp arts.length)) acc cur).1, db0) := by
  induction arts with
  | nil =>
    intro fp acc cur hf
    cases fp with
    | connect => simp [firesB] at hf
    | check k => simp [firesB] at hf
    | ins k => cases k <;> simp [firesB] at hf
    | commit => simp [fpIdx, save_loop]
  | cons a rest ih =>
    intro fp acc cur hf
    cases fp with
    | connect => simp [firesB] at hf
    | commit =>
      rw [show fpIdx .commit (a :: rest).length = rest.length + 1 from by simp [fpIdx]]
      rw [List.take_succ_cons, List.take_length]
      rw [save_loop, save_loop]
      rw [if_neg (show ¬(some FailPoint.commit = some (FailPoint.check 0)) by simp),
          if_neg (show ¬((none : Option FailPoint) = some (FailPoint.check 0)) by simp)]
      by_cases hex : urlExists cur a.url = true
      · rw [hex]
        simp only [reduceIte]
        rw [show stepFail (some .commit) = some .commit from rfl,
            show stepFail none = none from rfl]
        have h2 := ih .commit acc cur (by simp [firesB])
        rw [show fpIdx .commit rest.length = rest.length from rfl, List.take_length] at h2
        exact h2
      · rw [Bool.not_eq_true] at hex
        rw [hex]
        simp only [Bool.false_eq_true, reduceIte]
        rw [if_neg (show ¬(some FailPoint.commit = some (FailPoint.ins 0)) by simp),
            if_neg (show ¬((none : Option FailPoint) = some (FailPoint.ins 0)) by simp)]
        rw [show stepFail (some .commit) = some .commit from rfl,
            show stepFail none = none from rfl]
        have h2 := ih .commit (acc ++ [a]) (insertRow cur t a) (by simp [firesB])
        rw [show fpIdx .commit rest.length = rest.length from rfl, List.take_length] at h2
        exact h2
    | check k =>
      cases k with
      | zero =>
        rw [show fpIdx (.check 0) (a :: rest).length = 0 from rfl, List.take_zero]
        rw [save_loop, save_loop]
        rw [if_pos (show some (FailPoint.check 0) = some (FailPoint.check 0) from rfl)]
        rw [if_neg (show ¬((none : Option FailPoint) = some FailPoint.commit) by simp)]
      | succ k2 =>
        rw [show fpIdx (.check (k2 + 1)) (a :: rest).length = k2 + 1 from rfl]
        rw [List.take_succ_cons]
        rw [save_loop, save_loop]
        rw [if_neg (show ¬(some (FailPoint.check (k2 + 1)) = some (FailPoint.check 0)) by simp),
            if_neg (show ¬((none : Option FailPoint) = some (FailPoint.check 0)) by simp)]
        have hk2 : k2 < rest.length := by
          simp only [firesB, decide_eq_true_eq, List.length_cons] at hf
          omega
        by_cases hex : urlExists cur a.url = true
        · rw [hex]
          simp only [reduceIte]
          rw [show stepFail (some (.check (k2 + 1))) = some (.check k2) from rfl,
              show stepFail none = none from rfl]
          have h2 := ih (.check k2) acc cur (by simp [firesB, hk2])
          rw [show fpIdx (.check k2) rest.length = k2 from rfl] at h2
          exact h2
        · rw [Bool.not_eq_true] at hex
          rw [hex]
          simp only [Bool.false_eq_true, reduceIte]
          rw [if_neg (show ¬(some (FailPoint.check (k2 + 1)) = some (FailPoint.ins 0)) by simp),
              if_neg (show ¬((none : Option FailPoint) = some (FailPoint.ins 0)) by simp)]
          rw [show stepFail (some (.check (k2 + 1))) = some (.check k2) from rfl,
              show stepFail none = none from rfl]
          have h2 := ih (.check k2) (acc ++ [a]) (insertRow cur t a) (by simp [firesB, hk2])
          rw [show fpIdx (.check k2) rest.length = k2 from rfl] at h2
          exact h2
    | ins k =>
      cases k with
      | zero =>
        have hex : urlExists cur a.url = false := by
          simp only [firesB, Bool.not_eq_true'] at hf
          exact hf
        rw [show fpIdx (.ins 0) (a :: rest).length = 0 from rfl, List.take_zero]
        rw [save_loop, save_loop]
        rw [if_neg (show ¬(some (FailPoint.ins 0) = some (FailPoint.check 0)) by simp)]
        rw [hex]
        simp only [Bool.false_eq_true, reduceIte]
        rw [if_neg (show ¬((none : Option FailPoint) = some FailPoint.commit) by simp)]
      | succ k2 =>
        rw [show fpIdx (.ins (k2 + 1)) (a :: rest).length = k2 + 1 from rfl]
        rw [List.take_succ_cons]
        rw [save_loop, save_loop]
        rw [if_neg (show ¬(some (FailPoint.ins (k2 + 1)) = some (FailPoint.check 0)) by simp),
            if_neg (show ¬((none : Option FailPoint) = some (FailPoint.check 0)) by simp)]
        by_cases hex : urlExists cur a.url = true
        · rw [hex]
          simp only [reduceIte]
          rw [show stepFail (some (.ins (k2 + 1))) = some (.ins k2) from rfl,
              show stepFail none = none from rfl]
          have hf2 : firesB t (.ins k2) rest cur = true := by
            simp only [firesB, hex, reduceIte] at hf
            exact hf
          have h2 := ih (.ins k2) acc cur hf2
          rw [show fpIdx (.ins k2) rest.length = k2 from rfl] at h2
          exact h2
        · rw [Bool.not_eq_true] at hex
          rw [hex]
          simp only [Bool.false_eq_true, reduceIte]
          rw [if_neg (show ¬(some (FailPoint.ins (k2 + 1)) = some (FailPoint.ins 0)) by simp),
              if_neg (show ¬((none : Option FailPoint) = some (FailPoint.ins 0)) by simp)]
          rw [show stepFail (some (.ins (k2 + 1))) = some (.ins k2) from rfl,
              show stepFail none = none from rfl]
          have hf2 : firesB t (.ins k2) rest (insertRow cur t a) = true := by
            simp only [firesB, hex, Bool.false_eq_true, reduceIte] at hf
            exact hf
          have h2 := ih (.ins k2) (acc ++ [a]) (insertRow cur t a) hf2
          rw [show fpIdx (.ins k2) rest.length = k2 from rfl] at h2
          exact h2

theorem unsentLe_trans (a b c : Row) (h1 : unsentLe a b = true) (h2 : unsentLe b c = true) :
    unsentLe a c = true := by
  simp only [unsentLe, Bool.or_eq_true, Bool.and_eq_true, decide_eq_true_eq] at h1 h2 ⊢
  omega

theorem unsentLe_total (a b : Row) : (unsentLe a b || unsentLe b a) = true := by
  simp only [unsentLe, Bool.or_eq_true, Bool.and_eq_true, decide_eq_true_eq]
  omega

theorem length_filter_not_add_countP {α : Type} (l : List α) (p : α → Bool) :
    (l.filter (fun x => !p x)).length + l.countP p = l.length := by
  induction l with
  | nil => simp
  | cons x t ih =>
    by_cases hx : p x = true
    · simp only [List.filter_cons, List.countP_cons, hx, List.length_cons]
      simp only [Bool.not_true, Bool.false_eq_true, if_false, reduceIte]
      omega
    · rw [Bool.not_eq_true] at hx
      simp only [List.filter_cons, List.countP_cons, hx, List.length_cons]
      simp only [Bool.not_false, if_true, Bool.false_eq_true, reduceIte, List.length_cons]
      omega

/-- Example article of the spec's date-window test: ISO timestamp on the
target day. -/
def artIso : YArticle :=
  { published_date := .s (strCodes "2024-05-01T08:00:00Z"), payload := 1 }

/-- Example article: named-month string resolving to the target day. -/
def artNamed : YArticle :=
  { published_date := .s (strCodes "May 1, 2024"), payload := 2 }

/-- Example article: unparsable season string. -/
def artSeason : YArticle :=
  { published_date := .s (strCodes "Spring 2024"), payload := 3 }

/-- C5: for every Article in the batch, the date-window selector drops
the Article when its `published_date` is absent or unresolvable by the
tolerant parser, and retains it exactly when the resolved calendar date
equals the target day: `filter_yesterday_articles` equals `List.filter`
of the resolution predicate for every parser and every target day; and
on the spec's examples with target day 2024-05-01, the ISO-timestamp
article and the named-month article are retained while the
`"Spring 2024"` article is excluded. -/
theorem date_window_retains_iff_resolved_matches :
    (∀ (dp : List Nat → Option CalDate) (y : CalDate) (arts : List YArticle),
      filter_yesterday_articles dp y arts = arts.filter (resolvesToTarget dp y)) ∧
    filter_yesterday_articles date_parse ⟨2024, 5, 1⟩ [artIso, artNamed, artSeason]
      = [artIso, artNamed] := by
  constructor
  · intro dp y arts
    induction arts with
    | nil => rfl
    | cons a rest ih =>
      rw [List.filter_cons, filter_yesterday_articles]
      cases hpd : a.published_date with
      | null => simp [resolvesToTarget, hpd, ih]
      | dt d =>
        by_cases hd : d = y <;> simp [resolvesToTarget, hpd, hd, ih]
      | s v =>
        cases hdp : dp v with
        | none => simp [resolvesToTarget, hpd, hdp, ih]
        | some d =>
          by_cases hd : d = y <;> simp [resolvesToTarget, hpd, hdp, hd, ih]
      | other => simp [resolvesToTarget, hpd, ih]
  · decide

/-- C6: for every article, every keyword list, every matching
configuration with `whole_word` enabled, and every regex-engine
semantics, the filter built with `match_type = 'exact'` and the filter
built with `match_type = 'contain'` make the same accept/reject decision
on every article and hence filter every batch identically: both branches
run the identical word-boundary search (lines 85–99). -/
theorem exact_contain_collapse_under_whole_word
    (kws : List (List Nat)) (cfg : MatchingConfig)
    (search : RegexPattern → List Nat → Bool) (f1 f2 : KeywordFilter)
    (hww : cfg.whole_word = true)
    (h1 : keywordFilterInit kws { cfg with type := "exact" } = .ok f1)
    (h2 : keywordFilterInit kws { cfg with type := "contain" } = .ok f2) :
    (∀ a : FArticle,
      article_matches_keywords f1 search a = article_matches_keywords f2 search a) ∧
    (∀ arts : List FArticle,
      filter_articles f1 search arts = filter_articles f2 search arts) := by
  have hf1 : f1 =
      { keywords := kws, matchType := "exact",
        caseSensitive := cfg.case_sensitive, wholeWord := cfg.whole_word,
        matchAny := cfg.match_any, includeFields := cfg.include_fields,
        compiledPatterns := none } := by
    simp [keywordFilterInit] at h1
    exact h1.symm
  have hf2 : f2 =
      { keywords := kws, matchType := "contain",
        caseSensitive := cfg.case_sensitive, wholeWord := cfg.whole_word,
        matchAny := cfg.match_any, includeFields := cfg.include_fields,
        compiledPatterns := none } := by
    simp [keywordFilterInit] at h2
    exact h2.symm
  have hmatch : ∀ a : FArticle,
      article_matches_keywords f1 search a = article_matches_keywords f2 search a := by
    intro a
    rw [hf1, hf2]
    simp only [article_matches_keywords, hww]
    rfl
  exact ⟨hmatch, fun arts => by
    simp only [filter_articles]
    exact List.filter_congr (fun a _ => by rw [hmatch a])⟩

/-- Fixed abstract regex-engine semantics used in concrete witnesses. -/
def sfunW : RegexPattern → List Nat → Bool := fun _ _ => false

/-- Matching configuration used in the C6 witness: whole-word matching
over the title field, case-insensitive, OR semantics. -/
def cfgWw : MatchingConfig :=
  { type := "contain", case_sensitive := false, whole_word := true,
    match_any := true, include_fields := ["title"] }

/-- Sample article dict for keyword-filter witnesses. -/
def artKw : FArticle :=
  [("title", .s (strCodes "A new Battery design"))]

theorem exact_contain_collapse_under_whole_word_witness :
    article_matches_keywords
      { keywords := [strCodes "battery"], matchType := "exact",
        caseSensitive := false, wholeWord := true, matchAny := true,
        includeFields := ["title"], compiledPatterns := none } sfunW artKw
    = article_matches_keywords
      { keywords := [strCodes "battery"], matchType := "contain",
        caseSensitive := false, wholeWord := true, matchAny := true,
        includeFields := ["title"], compiledPatterns := none } sfunW artKw :=
  (exact_contain_collapse_under_whole_word [strCodes "battery"] cfgWw sfunW
    _ _ rfl rfl rfl).1 artKw

/-- C8: constructing the keyword filter with `match_type = 'regex'` and
a syntactically invalid pattern among the keywords raises out of the
constructor (`re.compile` is called eagerly in `__init__` with no
try/except), so filtering can never run with a malformed pattern. -/
theorem regex_invalid_pattern_fails_at_init
    (kws : List (List Nat)) (cfg : MatchingConfig) (k : List Nat)
    (hk : k ∈ kws) (hbad : regexAccepts k = false) (ht : cfg.type = "regex") :
    ∃ e, keywordFilterInit kws cfg = .error e := by
  unfold keywordFilterInit
  rw [if_pos ht]
  have hsome : (kws.find? (fun k => !regexAccepts k)).isSome = true := by
    rw [List.find?_isSome]
    exact ⟨k, hk, by simp [hbad]⟩
  obtain ⟨bad, hbadf⟩ := Option.isSome_iff_exists.mp hsome
  rw [hbadf]
  exact ⟨bad, rfl⟩

/-- Matching configuration used in the C8 witness. -/
def cfgRegexW : MatchingConfig :=
  { type := "regex", case_sensitive := false, whole_word := false,
    match_any := true, include_fields := ["title"] }

theorem regex_invalid_pattern_fails_at_init_witness :
    strCodes "(" ∈ [strCodes "("] ∧ regexAccepts (strCodes "(") = false ∧
    ∃ e, keywordFilterInit [strCodes "("] cfgRegexW = .error e :=
  ⟨by decide, by decide,
    regex_invalid_pattern_fails_at_init [strCodes "("] cfgRegexW (strCodes "(")
      (by decide) (by decide) rfl⟩

/-- C9: with an empty configured keyword list the per-keyword match list
is empty, so a filter built by the constructor rejects every article
when `match_any` is true (`any([]) = False`) and accepts every article
when `match_any` is false (`all([]) = True`), for every match type and
every regex-engine semantics. -/
theorem empty_keywords_all_or_nothing
    (cfg : MatchingConfig) (search : RegexPattern → List Nat → Bool)
    (arts : List FArticle) (f : KeywordFilter)
    (hinit : keywordFilterInit [] cfg = .ok f) :
    filter_articles f search arts = (if cfg.match_any then [] else arts) := by
  have hmatch : ∀ a : FArticle,
      article_matches_keywords f search a = (if cfg.match_any then false else true) := by
    intro a
    by_cases ht : cfg.type = "regex"
    · have hf : f =
          { keywords := [], matchType := cfg.type,
            caseSensitive := cfg.case_sensitive, wholeWord := cfg.whole_word,
            matchAny := cfg.match_any, includeFields := cfg.include_fields,
            compiledPatterns := some [] } := by
        simp [keywordFilterInit, ht] at hinit
        simp [ht]
        exact hinit.symm
      rw [hf]
      simp only [article_matches_keywords, ht]
      cases cfg.match_any <;> simp
    · have hf : f =
          { keywords := [], matchType := cfg.type,
            caseSensitive := cfg.case_sensitive, wholeWord := cfg.whole_word,
            matchAny := cfg.match_any, includeFields := cfg.include_fields,
            compiledPatterns := none } := by
        simp [keywordFilterInit, ht] at hinit
        exact hinit.symm
      rw [hf]
      simp only [article_matches_keywords]
      rw [if_neg ht]
      cases cfg.match_any <;> simp
  cases hma : cfg.match_any with
  | false =>
    simp only [Bool.false_eq_true, reduceIte]
    have hacc : ∀ a ∈ arts, article_matches_keywords f search a = true := by
      intro a _
      rw [hmatch a, hma]
      simp
    simp only [filter_articles]
    exact List.filter_eq_self.mpr hacc
  | true =>
    simp only [reduceIte]
    have hrej : ∀ a ∈ arts, ¬ article_matches_keywords f search a = true := by
      intro a _
      rw [hmatch a, hma]
      simp
    simp only [filter_articles]
    exact List.filter_eq_nil_iff.mpr hrej

/-- Matching configuration used in the C9 witness. -/
def cfgW9 : MatchingConfig :=
  { type := "contain", case_sensitive := false, whole_word := false,
    match_any := true, include_fields := ["title"] }

theorem empty_keywords_all_or_nothing_witness :
    filter_articles
      { keywords := [], matchType := "contain", caseSensitive := false,
        wholeWord := false, matchAny := true, includeFields := ["title"],
        compiledPatterns := none } sfunW [artKw] = [] := by
  have h := empty_keywords_all_or_nothing cfgW9 sfunW [artKw]
    { keywords := [], matchType := "contain", caseSensitive := false,
      wholeWord := false, matchAny := true, includeFields := ["title"],
      compiledPatterns := none } rfl
  simpa using h

/-- The empty store used by the storage witnesses. -/
def dbEmpty : Db := { rows := [], nextId := 1 }

/-- Concrete sample article 1 for the storage witnesses. -/
def artW1 : Article :=
  { title := strCodes "Synthesis of MOF5 nanostructures", url := strCodes "http://x/1",
    abstract := strCodes "a1", authors := [strCodes "Alice"],
    published_date := .s (strCodes "2024-05-01"), journal := strCodes "J",
    keywords := some [strCodes "MOF"], doi := none, source_id := none }

/-- Concrete sample article 2 for the storage witnesses. -/
def artW2 : Article :=
  { title := strCodes "A new Battery design", url := strCodes "http://x/2",
    abstract := strCodes "a2", authors := [strCodes "Bob", strCodes "Carol"],
    published_date := .s (strCodes "2024-05-01"), journal := strCodes "J",
    keywords := none, doi := some (strCodes "10.1/x"), source_id := some (strCodes "s") }

/-- Concrete sample article 3 for the storage witnesses. -/
def artW3 : Article :=
  { title := strCodes "Solar cells", url := strCodes "http://x/3",
    abstract := strCodes "a3", authors := [],
    published_date := .null, journal := strCodes "J",
    keywords := some [], doi := none, source_id := none }

/-- C1: with an input batch of pairwise-distinct urls none of which is
already stored, an error-free `save_articles` returns the full list and
inserts it; the identical second call returns the empty list and leaves
the store byte-for-byte unchanged (so the row count does not grow and no
existing record's field values are altered by the attempted duplicate
persists); the first call grew the store by exactly the batch size. -/
theorem save_new_twice_idempotent (db : Db) (t : Int) (arts : List Article)
    (hnd : (arts.map (fun a => a.url)).Nodup)
    (hfresh : ∀ a ∈ arts, urlExists db a.url = false) :
    (save_articles db t arts none).1 = arts ∧
    (save_articles (save_articles db t arts none).2 t arts none).1 = [] ∧
    (save_articles (save_articles db t arts none).2 t arts none).2
      = (save_articles db t arts none).2 ∧
    (save_articles db t arts none).2.rows.length = db.rows.length + arts.length := by
  have h1 : save_articles db t arts none = (arts, insertAll db t arts) := by
    unfold save_articles
    rw [if_neg (by simp)]
    rw [save_loop_none_fresh db t arts [] db hnd hfresh]
    simp
  have h2 : save_articles (insertAll db t arts) t arts none
      = ([], insertAll db t arts) := by
    unfold save_articles
    rw [if_neg (by simp)]
    exact save_loop_none_allexist (insertAll db t arts) t arts [] (insertAll db t arts)
      (fun a ha => urlExists_insertAll_mem db t arts a ha)
  rw [h1]
  refine ⟨rfl, ?_, ?_, ?_⟩
  · rw [h2]
  · rw [h2]
  · exact insertAll_rows_length db t arts

theorem save_new_twice_idempotent_witness :
    (([artW1, artW2].map (fun a => a.url)).Nodup ∧
      (∀ a ∈ [artW1, artW2], urlExists dbEmpty a.url = false)) ∧
    ((save_articles dbEmpty 0 [artW1, artW2] none).1 = [artW1, artW2] ∧
     (save_articles (save_articles dbEmpty 0 [artW1, artW2] none).2 0
        [artW1, artW2] none).1 = [] ∧
     (save_articles (save_articles dbEmpty 0 [artW1, artW2] none).2 0
        [artW1, artW2] none).2 = (save_articles dbEmpty 0 [artW1, artW2] none).2 ∧
     (save_articles dbEmpty 0 [artW1, artW2] none).2.rows.length
        = dbEmpty.rows.length + ([artW1, artW2] : List Article).length) :=
  ⟨⟨by decide, by decide⟩,
    save_new_twice_idempotent dbEmpty 0 [artW1, artW2] (by decide) (by decide)⟩

theorem save_articles_fail (db : Db) (t : Int) (arts : List Article) (fp : FailPoint)
    (hf : saveFailFires db t arts fp) :
    save_articles db t arts (some fp)
      = ((save_articles db t (arts.take (fpIdx fp arts.length)) none).1, db) := by
  rcases hf with rfl | hfb
  · unfold save_articles
    rw [if_pos rfl]
    rw [show fpIdx .connect arts.length = 0 from rfl, List.take_zero]
    rw [if_neg (show ¬((none : Option FailPoint) = some FailPoint.connect) by simp)]
    simp [save_loop]
  · have hnc : fp ≠ .connect := by
      intro h
      subst h
      simp [firesB] at hfb
    unfold save_articles
    rw [if_neg (show ¬(some fp = some FailPoint.connect) by simp [hnc]),
        if_neg (show ¬((none : Option FailPoint) = some FailPoint.connect) by simp)]
    exact save_loop_fail db t arts fp [] db hfb

/-- C2 (amended): when `sqlite3` raises at any reachable site during
`save_articles`, the error is caught and the transaction rolls back, so
the persistent state is exactly the pre-call state; but the operation
returns the `new_articles` accumulated before the failure — the list of
new articles among the prefix processed so far — which is not in general
the empty list. -/
theorem save_error_rolls_back_returns_prefix (db : Db) (t : Int)
    (arts : List Article) (fp : FailPoint) (hf : saveFailFires db t arts fp) :
    (save_articles db t arts (some fp)).2 = db ∧
    (save_articles db t arts (some fp)).1
      = (save_articles db t (arts.take (fpIdx fp arts.length)) none).1 := by
  rw [save_articles_fail db t arts fp hf]
  exact ⟨rfl, rfl⟩

theorem save_error_returns_nonempty_cex :
    (save_articles dbEmpty 0 [artW1, artW2] (some (.ins 1))).1 = [artW1] ∧
    (save_articles dbEmpty 0 [artW1, artW2] (some (.ins 1))).2 = dbEmpty ∧
    ([artW1] : List Article) ≠ [] := by
  refine ⟨by decide, by decide, by decide⟩

theorem save_error_rolls_back_returns_prefix_witness :
    saveFailFires dbEmpty 0 [artW1, artW2] (.ins 1) ∧
    ((save_articles dbEmpty 0 [artW1, artW2] (some (.ins 1))).2 = dbEmpty ∧
     (save_articles dbEmpty 0 [artW1, artW2] (some (.ins 1))).1
       = (save_articles dbEmpty 0
           ([artW1, artW2].take (fpIdx (.ins 1) ([artW1, artW2] : List Article).length))
           none).1) :=
  ⟨Or.inr (by decide),
    save_error_rolls_back_returns_prefix dbEmpty 0 [artW1, artW2] (.ins 1)
      (Or.inr (by decide))⟩

/-- C4 (amended): a storage failure while persisting one record of the
batch aborts the loop and rolls the whole transaction back: the
remaining records are not attempted (the returned list is exactly that
of an error-free run on the prefix before the failing record) and the
store is left in its pre-call state, so no record of the call — neither
before nor after the failing one — remains persisted. -/
theorem save_mid_batch_failure_aborts (db : Db) (t : Int) (arts : List Article)
    (k : Nat) (hf : firesB t (.ins k) arts db = true) :
    (save_articles db t arts (some (.ins k))).2 = db ∧
    (save_articles db t arts (some (.ins k))).1
      = (save_articles db t (arts.take k) none).1 := by
  have h := save_articles_fail db t arts (.ins k) (Or.inr hf)
  rw [show fpIdx (.ins k) arts.length = k from rfl] at h
  rw [h]
  exact ⟨rfl, rfl⟩

theorem save_mid_batch_failure_cex :
    save_articles dbEmpty 0 [artW1, artW2, artW3] (some (.ins 1)) = ([artW1], dbEmpty) ∧
    urlExists dbEmpty artW3.url = false ∧
    (save_articles dbEmpty 0 [artW1, artW2, artW3] (some (.ins 1))).2.rows = [] := by
  refine ⟨by decide, by decide, by decide⟩

theorem save_mid_batch_failure_aborts_witness :
    firesB 0 (.ins 1) [artW1, artW2, artW3] dbEmpty = true ∧
    ((save_articles dbEmpty 0 [artW1, artW2, artW3] (some (.ins 1))).2 = dbEmpty ∧
     (save_articles dbEmpty 0 [artW1, artW2, artW3] (some (.ins 1))).1
       = (save_articles dbEmpty 0 ([artW1, artW2, artW3].take 1) none).1) :=
  ⟨by decide,
    save_mid_batch_failure_aborts dbEmpty 0 [artW1, artW2, artW3] 1 (by decide)⟩

/-- An expired, already-sent sample row for the cleanup theorems. -/
def rowOld : Row :=
  { id := 1, title := strCodes "T", url := strCodes "u", abstract := [],
    authors := strCodes "[]", published_date := .null, journal := [],
    keywords := strCodes "[]", doi := [], source_id := [],
    collected_date := 69, sent_date := some 80 }

/-- A store holding only the expired row. -/
def dbOld : Db := { rows := [rowOld], nextId := 2 }

theorem cleanup_returns_none_not_count_cex :
    cleanup_deleted_count dbOld 100 30 = 1 ∧
    (cleanup_old_articles dbOld 100 30).2 = none ∧
    (cleanup_old_articles dbOld 100 30).2 ≠ some 1 := by
  refine ⟨by decide, rfl, by decide⟩

/-- C3 (amended): `cleanup_old_articles` deletes exactly the rows whose
`collected_date` is strictly older than `retention_days` before today,
regardless of `sent_date`; the number of rows removed is computed (and
logged) but the function returns `None`, not that integer; and a row
collected `retention_days + 1` days ago is removed. -/
theorem cleanup_expired_deletes_strictly_older (db : Db) (today r : Int) :
    (∀ row, row ∈ (cleanup_old_articles db today r).1.rows ↔
      (row ∈ db.rows ∧ ¬ row.collected_date < today - r)) ∧
    (cleanup_old_articles db today r).2 = none ∧
    (cleanup_old_articles db today r).1.rows.length + cleanup_deleted_count db today r
      = db.rows.length ∧
    (∀ row ∈ db.rows, row.collected_date = today - (r + 1) →
      row ∉ (cleanup_old_articles db today r).1.rows) := by
  refine ⟨?_, rfl, ?_, ?_⟩
  · intro row
    simp [cleanup_old_articles, List.mem_filter]
  · exact length_filter_not_add_countP db.rows _
  · intro row _ heq hmem
    rw [show (cleanup_old_articles db today r).1.rows
          = db.rows.filter (fun row => !(row.collected_date < today - r)) from rfl] at hmem
    rw [List.mem_filter] at hmem
    have h2 := hmem.2
    simp only [Bool.not_eq_true', decide_eq_false_iff_not, not_lt] at h2
    omega

theorem cleanup_expired_witness :
    (∀ row, row ∈ (cleanup_old_articles dbOld 100 30).1.rows ↔
      (row ∈ dbOld.rows ∧ ¬ row.collected_date < 100 - 30)) ∧
    (cleanup_old_articles dbOld 100 30).2 = none ∧
    (cleanup_old_articles dbOld 100 30).1.rows.length
      + cleanup_deleted_count dbOld 100 30 = dbOld.rows.length ∧
    (∀ row ∈ dbOld.rows, row.collected_date = 100 - (30 + 1) →
      row ∉ (cleanup_old_articles dbOld 100 30).1.rows) :=
  cleanup_expired_deletes_strictly_older dbOld 100 30

/-- C7: `get_unsent_articles`'s query returns only stored rows whose
`sent_date` is NULL, in an order that is non-increasing under
(`collected_date`, id) — i.e. `collected_date DESC, id DESC` — with
exactly `min limit (number of unsent rows)` results; when the unsent
rows fit within `limit`, every unsent row is returned. -/
theorem list_unsent_spec (db : Db) (limit : Nat) :
    (∀ r ∈ get_unsent_rows db limit, r.sent_date = none ∧ r ∈ db.rows) ∧
    List.Pairwise (fun r1 r2 => unsentLe r1 r2 = true) (get_unsent_rows db limit) ∧
    (get_unsent_rows db limit).length
      = min limit (db.rows.countP (fun r => r.sent_date = none)) ∧
    (db.rows.countP (fun r => r.sent_date = none) ≤ limit →
      ∀ r ∈ db.rows, r.sent_date = none → r ∈ get_unsent_rows db limit) := by
  have hperm := List.mergeSort_perm
    (db.rows.filter (fun r => r.sent_date = none)) unsentLe
  have hsorted := List.sorted_mergeSort
    (fun a b c h1 h2 => unsentLe_trans a b c h1 h2) unsentLe_total
    (db.rows.filter (fun r => r.sent_date = none))
  refine ⟨?_, ?_, ?_, ?_⟩
  · intro r hr
    have hr2 := List.take_subset _ _ hr
    have hr3 := hperm.mem_iff.mp hr2
    rw [List.mem_filter] at hr3
    exact ⟨by simpa using hr3.2, hr3.1⟩
  · exact List.Pairwise.sublist (List.take_sublist _ _) hsorted
  · rw [show get_unsent_rows db limit
          = (((db.rows.filter (fun r => r.sent_date = none)).mergeSort unsentLe)).take limit
        from rfl]
    rw [List.length_take, hperm.length_eq, List.countP_eq_length_filter]
  · intro hle r hr hsent
    have hlenf : (((db.rows.filter (fun r => r.sent_date = none)).mergeSort
        unsentLe)).length ≤ limit := by
      rw [hperm.length_eq, ← List.countP_eq_length_filter]
      exact hle
    rw [show get_unsent_rows db limit
          = (((db.rows.filter (fun r => r.sent_date = none)).mergeSort unsentLe)).take limit
        from rfl]
    rw [List.take_of_length_le hlenf]
    exact hperm.mem_iff.mpr (List.mem_filter.mpr ⟨hr, by simp [hsent]⟩)

/-- An unsent sample row for the C7 witness. -/
def rowUnsent : Row :=
  { id := 2, title := strCodes "T2", url := strCodes "u2", abstract := [],
    authors := strCodes "[]", published_date := .null, journal := [],
    keywords := strCodes "[]", doi := [], source_id := [],
    collected_date := 75, sent_date := none }

/-- A store with one sent and one unsent row for the C7 witness. -/
def dbW7 : Db := { rows := [rowOld, rowUnsent], nextId := 3 }

theorem list_unsent_spec_witness :
    (get_unsent_rows dbW7 10).length
      = min 10 (dbW7.rows.countP (fun r => r.sent_date = none)) :=
  (list_unsent_spec dbW7 10).2.2.1

/-- C10: after an error-free `save_articles`, every row that a
subsequent `get_unsent_articles` query can return either predates the
call or stores some input article's `authors` and `keywords` as JSON
text that deserializes back to exactly the originally saved ordered
string lists: the `json.dumps`-then-`json.loads` round trip on the two
list columns is the identity for well-formed text. -/
theorem save_then_unsent_roundtrip (db : Db) (t : Int) (arts : List Article)
    (limit : Nat)
    (hwf : ∀ a ∈ arts, (∀ s ∈ a.authors, ∀ c ∈ s, isScalar c) ∧
      (∀ s ∈ a.keywords.getD [], ∀ c ∈ s, isScalar c)) :
    ∀ r ∈ get_unsent_rows (save_articles db t arts none).2 limit,
      r ∈ db.rows ∨ ∃ a ∈ arts, ∃ o, row_to_article r = some o ∧
        o.authors = a.authors ∧ o.keywords = a.keywords.getD [] ∧ o.url = a.url := by
  intro r hr
  have hr2 : r ∈ (save_articles db t arts none).2.rows := by
    have h1 := List.take_subset _ _ hr
    have h2 := (List.mergeSort_perm _ unsentLe).mem_iff.mp h1
    exact (List.mem_filter.mp h2).1
  have h3 : r ∈ (save_loop db t none arts [] db).2.rows := by
    rw [show save_articles db t arts none = save_loop db t none arts [] db from by
      unfold save_articles
      rw [if_neg (show ¬((none : Option FailPoint) = some FailPoint.connect) by simp)]]
      at hr2
    exact hr2
  rcases save_loop_none_rows_mem db t arts [] db r h3 with h | ⟨a, ha, hau, hkw, hurl⟩
  · exact Or.inl h
  · right
    refine ⟨a, ha, ?_⟩
    have hwa := (hwf a ha).1
    have hwk := (hwf a ha).2
    refine ⟨{ id := r.id, title := r.title, url := r.url, abstract := r.abstract,
              authors := a.authors, published_date := r.published_date,
              journal := r.journal, keywords := a.keywords.getD [], doi := r.doi,
              source_id := r.source_id, collected_date := r.collected_date,
              sent_date := r.sent_date }, ?_, rfl, rfl, hurl⟩
    unfold row_to_article
    rw [hau, hkw, loadsStrList_dumpsStrList _ hwa, loadsStrList_dumpsStrList _ hwk]

/-- The row that saving `artW1` into the empty store creates. -/
def rowW1 : Row :=
  { id := 1, title := artW1.title, url := artW1.url, abstract := artW1.abstract,
    authors := dumpsStrList artW1.authors, published_date := artW1.published_date,
    journal := artW1.journal, keywords := dumpsStrList (artW1.keywords.getD []),
    doi := [], source_id := [], collected_date := 0, sent_date := none }

theorem save_then_unsent_roundtrip_witness :
    rowW1 ∈ dbEmpty.rows ∨ ∃ a ∈ [artW1], ∃ o, row_to_article rowW1 = some o ∧
      o.authors = a.authors ∧ o.keywords = a.keywords.getD [] ∧ o.url = a.url :=
  save_then_unsent_roundtrip dbEmpty 0 [artW1] 10 (by decide) rowW1 (by
    unfold get_unsent_rows
    rw [show (save_articles dbEmpty 0 [artW1] none).2.rows.filter
          (fun r => r.sent_date = none) = [rowW1] from by decide]
    simp)
